import Mathlib

/-!
Verification of the category-based file organizer (`organize.py`).

The program is embedded shallowly:
* an absolute filesystem path is a list of name components (`Path`);
* the filesystem is a finite snapshot: the list of existing files and the
  list of existing directories (`FS`);
* `shutil.move`, `Path.mkdir(parents, exist_ok)`, `Path.iterdir`,
  `Path.exists`, `Path.is_dir`, `Path.stem` / `Path.suffix`,
  `str.lower` / `str.lstrip(".")` / `str.startswith` are modelled as pure
  functions on this state;
* `open(log_path, "w")` is modelled by adding the log path to the set of
  existing files, and the content of the move log is carried as the list of
  `(source, destination)` records that `move_file` writes (one `src||dst`
  line per executed move);
* `sys.exit(1)` is modelled by an `Except.error` result paired with the
  unchanged filesystem.

Enumeration order of `os.listdir` is filesystem-dependent; the model fixes
one admissible order: stored file order followed by stored directory order.
-/

namespace Organizer

/-- An absolute path: the list of its name components. -/
abbrev Path := List String

/-- A filesystem snapshot: the existing regular files and the existing
directories, each identified by its absolute path. -/
structure FS where
  files : List Path
  dirs : List Path
deriving DecidableEq

/-- `Path.exists()`: the path is an existing file or an existing directory. -/
def FS.pathExists (fs : FS) (p : Path) : Bool :=
  decide (p ∈ fs.files) || decide (p ∈ fs.dirs)

/-- `Path.is_dir()`. -/
def FS.isDir (fs : FS) (p : Path) : Bool :=
  decide (p ∈ fs.dirs)

/-- `Path.name`: the final component of a path. -/
def pathName (p : Path) : String :=
  p.getLastD ""

/-- The nonempty ancestors (including the path itself) created by
`mkdir(parents=True)`. -/
def ancestorsOf (p : Path) : List Path :=
  (List.range p.length).map (fun i => p.take (i + 1))

/-- `ensure_dir`: `path.mkdir(parents=True, exist_ok=True)` — create the
directory and all missing ancestors; idempotent when present. -/
def FS.ensureDir (fs : FS) (p : Path) : FS :=
  { fs with dirs := fs.dirs ++ (ancestorsOf p).filter (fun q => decide (q ∉ fs.dirs)) }

/-- `shutil.move(str(src), str(dst))` for a regular file: the file stops
existing at `src` and starts existing at `dst`. -/
def FS.moveFile (fs : FS) (src dst : Path) : FS :=
  { fs with files := fs.files.erase src ++ [dst] }

/-- One admissible `os.listdir` enumeration of the direct children of a
folder: files first, then directories, in stored order. -/
def FS.listDir (fs : FS) (folder : Path) : List Path :=
  (fs.files ++ fs.dirs).filter (fun p => decide (p ≠ []) && decide (p.dropLast = folder))

/-- `str.lower()` (ASCII, as exercised by extension strings). -/
def strLower (s : String) : String :=
  String.mk (s.data.map Char.toLower)

/-- `str.lstrip(".")`: drop every leading `'.'` character. -/
def strLStripDot (s : String) : String :=
  String.mk (s.data.dropWhile (fun c => c = '.'))

/-- `str.startswith(pre)`. -/
def strStartsWith (s pre : String) : Bool :=
  pre.data.isPrefixOf s.data

/-- `pathlib`'s split of a file name into `(stem, suffix)`: the suffix is
`name[i:]` for `i` the index of the last dot, provided `0 < i < len - 1`;
otherwise the suffix is empty and the stem is the whole name. -/
def splitExt (name : String) : String × String :=
  let l := name.data
  let afterRev := l.reverse.takeWhile (fun c => ¬ c = '.')
  if afterRev.length = l.length then (name, "")
  else
    let i := l.length - afterRev.length - 1
    if 0 < i ∧ i + 1 < l.length then (String.mk (l.take i), String.mk (l.drop i))
    else (name, "")

/-- Decimal digits of `n`, least significant first (`fuel ≥ n` suffices). -/
def natDigitsRev : Nat → Nat → List Char
  | 0, _ => []
  | Nat.succ fuel, n => if n = 0 then [] else Nat.digitChar (n % 10) :: natDigitsRev fuel (n / 10)

/-- Decimal rendering of a natural number, as the f-string `{k}` renders it. -/
def natStr (n : Nat) : String :=
  if n = 0 then "0" else String.mk (natDigitsRev n n).reverse

/-- Decode a least-significant-first digit list; left inverse of
`natDigitsRev`, used to prove `natStr` injective. -/
def decRev (l : List Char) : Nat :=
  l.foldr (fun c acc => acc * 10 + (c.toNat - 48)) 0

-- ---------- The category table (CATEGORIES in the source) ----------

def CATEGORIES : List (String × List String) :=
  [("images", ["jpg", "jpeg", "png", "gif", "webp", "bmp", "tiff", "heic"]),
   ("docs", ["pdf", "doc", "docx", "txt", "md", "rtf"]),
   ("slides", ["ppt", "pptx", "key"]),
   ("spreadsheets", ["xls", "xlsx", "csv", "ods"]),
   ("archives", ["zip", "rar", "7z", "tar", "gz"]),
   ("audio", ["mp3", "wav", "aac", "flac", "m4a", "ogg"]),
   ("video", ["mp4", "mov", "mkv", "avi", "wmv", "webm"]),
   ("code", ["py", "ipynb", "js", "ts", "html", "css", "java", "c", "cpp", "rs", "go", "sh", "ps1"])]

def OTHER_BUCKET : String := "other"

def NOEXT_BUCKET : String := "no_extension"

deriving instance DecidableEq for Except

/-- Every bucket name `pick_bucket` can produce. -/
def bucketNames : List String :=
  CATEGORIES.map Prod.fst ++ [OTHER_BUCKET, NOEXT_BUCKET]

/-- The fixed literal log-name beginning used by `organize` and its skip rule. -/
def logMarker : String := "_organize_log_"

/-- `pick_bucket(ext)`: empty raw input means no extension; otherwise the
input is lowercased, leading dots are stripped, and the first table entry
whose extension set contains the result wins; otherwise the other bucket. -/
def pick_bucket (ext : String) : String :=
  if ext = "" then NOEXT_BUCKET
  else
    match CATEGORIES.find? (fun be => decide (strLStripDot (strLower ext) ∈ be.2)) with
    | some be => be.1
    | none => OTHER_BUCKET

-- ---------- Collision resolver (safe_destination in the source) ----------

/-- The candidate paths probed by `safe_destination`: candidate `0` is
`dst_folder / filename`; candidate `i + 1` is
`dst_folder / "{stem} ({i + 2}){ext}"`. -/
def sdCandidate (dstFolder : Path) (filename : String) : Nat → Path
  | 0 => dstFolder ++ [filename]
  | Nat.succ i =>
      dstFolder ++ [(splitExt filename).1 ++ " (" ++ natStr (i + 2) ++ ")" ++ (splitExt filename).2]

/-- The `while candidate.exists()` search of `safe_destination`, starting at
candidate `i`.  The loop in the source is unbounded; `fuel` is only a
termination bound, and with the fuel used by `safe_destination` the
fuel-exhausted fallback is unreachable (`sd_spec`). -/
def safeDestinationAux (fs : FS) (dstFolder : Path) (filename : String) : Nat → Nat → Path
  | i, 0 => sdCandidate dstFolder filename i
  | i, Nat.succ fuel =>
      if fs.pathExists (sdCandidate dstFolder filename i) then
        safeDestinationAux fs dstFolder filename (i + 1) fuel
      else sdCandidate dstFolder filename i

/-- `safe_destination(dst_folder, filename)`. -/
def safe_destination (fs : FS) (dstFolder : Path) (filename : String) : Path :=
  safeDestinationAux fs dstFolder filename 0 (fs.files.length + fs.dirs.length + 1)

-- ---------- Move executor (move_file in the source) ----------

/-- `move_file(src, dst, dry_run, log_f)`: returns the updated filesystem and
the move records appended to the open log (`log_f.write(f"{src}||{dst}")`). -/
def move_file (fs : FS) (src dst : Path) (dryRun : Bool) (logOpen : Bool) :
    FS × List (Path × Path) :=
  if dryRun then (fs, [])
  else
    let fs1 := fs.ensureDir dst.dropLast
    let fs2 := fs1.moveFile src dst
    (fs2, if logOpen then [(src, dst)] else [])

-- ---------- Organize planner (organize in the source) ----------

/-- The body of the `for p in iterator` loop of `organize` (non-recursive
mode), threading the filesystem, the planned/executed `(src, dst)` pairs and
the processed counter. -/
def organizeStep (folder : Path) (dryRun : Bool) (acc : FS × List (Path × Path) × Nat)
    (p : Path) : FS × List (Path × Path) × Nat :=
  let fs := acc.1
  let plan := acc.2.1
  let cnt := acc.2.2
  if fs.isDir p then acc
  else if strStartsWith (pathName p) logMarker then acc
  else if p.dropLast ≠ folder then acc
  else
    let ext := (splitExt (pathName p)).2
    let bucket := pick_bucket ext
    let dst := safe_destination fs (folder ++ [bucket]) (pathName p)
    let fsr := move_file fs p dst dryRun true
    (fsr.1, plan ++ [(p, dst)], cnt + 1)

/-- `organize(folder, dry_run, include_subdirs=False)`.  On a non-directory
it exits with status 1 (`Except.error`) leaving the filesystem untouched;
otherwise it opens the move log (non-dry only), snapshots the direct
children, runs the loop, and reports the `(src, dst)` pairs it printed /
executed, the processed count and the log path. -/
def organize (fs : FS) (folder : Path) (dryRun : Bool) (ts : String) :
    FS × Except String (List (Path × Path) × Nat × Path) :=
  if fs.isDir folder = false then (fs, Except.error "Not a directory")
  else
    let logPath := folder ++ [logMarker ++ ts ++ ".txt"]
    let fs1 := if dryRun then fs else { fs with files := fs.files ++ [logPath] }
    let snap := fs1.listDir folder
    let r := snap.foldl (organizeStep folder dryRun) (fs1, [], 0)
    (r.1, Except.ok (r.2.1, r.2.2, logPath))

-- ---------- Undo engine (undo in the source) ----------

/-- The per-record console reports of `undo`. -/
inductive UndoMsg where
  | wouldUndo (dst target : Path)
  | undid (dst target : Path)
  | missing (dst : Path)
deriving DecidableEq

/-- The body of the `for src, dst in reversed(moves)` loop of `undo`. -/
def undoStep (dryRun : Bool) (acc : FS × List UndoMsg) (entry : Path × Path) :
    FS × List UndoMsg :=
  let fs := acc.1
  let msgs := acc.2
  let src := entry.1
  let dst := entry.2
  if fs.pathExists dst then
    let target :=
      if fs.pathExists src then safe_destination fs src.dropLast (pathName dst) else src
    if dryRun then (fs, msgs ++ [UndoMsg.wouldUndo dst target])
    else ((fs.ensureDir target.dropLast).moveFile dst target, msgs ++ [UndoMsg.undid dst target])
  else (fs, msgs ++ [UndoMsg.missing dst])

/-- `undo(log_file, dry_run)`: exits with status 1 when the log file does not
exist; otherwise replays the parsed records in reverse order.  `records` is
the parsed content of the log file. -/
def undo (fs : FS) (logFile : Path) (records : List (Path × Path)) (dryRun : Bool) :
    FS × Except String (List UndoMsg) :=
  if fs.pathExists logFile = false then (fs, Except.error "Log file not found")
  else
    let r := records.reverse.foldl (undoStep dryRun) (fs, [])
    (r.1, Except.ok r.2)

-- ---------- Spec-side definition for the classifier refinement check ----------

/-- The classifier as the spec words it (for comparison with `pick_bucket`):
first normalize — strip any leading separator, lowercase — and only then
test for emptiness; empty after normalization means the reserved
no-extension bucket. -/
def pickBucketSpec (ext : String) : String :=
  let e := strLStripDot (strLower ext)
  if e = "" then NOEXT_BUCKET
  else
    match CATEGORIES.find? (fun be => decide (e ∈ be.2)) with
    | some be => be.1
    | none => OTHER_BUCKET

-- ---------- Concrete fixtures used by counterexamples and witnesses ----------

/-- A run of `undo` hit by a collision: the original source `r/a.jpg` was
moved (renamed, due to a collision) to `r/images/a (2).jpg`; since then new
files occupy both `r/a.jpg` and `r/a (2).jpg`. -/
def cexC2FS : FS :=
  { files := [["r", "a.jpg"], ["r", "a (2).jpg"], ["r", "images", "a (2).jpg"]],
    dirs := [["r"], ["r", "images"]] }

/-- A root directory whose organize run creates a collision for a later
candidate: `r/images/a.jpg` already exists, and both `r/a.jpg` and
`r/a (2).jpg` are candidates mapping to the `images` bucket. -/
def cexC4FS : FS :=
  { files := [["r", "images", "a.jpg"], ["r", "a.jpg"], ["r", "a (2).jpg"]],
    dirs := [["r"], ["r", "images"]] }

/-- The round-trip directory of the spec: a folder `d` holding exactly
`a.jpg`, `b.pdf` and `c` (no extension). -/
def rtFS : FS :=
  { files := [["d", "a.jpg"], ["d", "b.pdf"], ["d", "c"]], dirs := [["d"]] }

/-- The filesystem after the non-dry organize run on `rtFS`. -/
def rtAfterOrganize : FS := (organize rtFS ["d"] false "T").1

/-- The records the organize run on `rtFS` wrote to its move log. -/
def rtRecords : List (Path × Path) :=
  match (organize rtFS ["d"] false "T").2 with
  | Except.ok (plan, _, _) => plan
  | Except.error _ => []

/-- The filesystem after undoing that run from its log. -/
def rtAfterUndo : FS :=
  (undo rtAfterOrganize ["d", "_organize_log_T.txt"] rtRecords false).1

-- ---------- Proof devices for the dry-run / real-run comparison ----------

/-- The plan both modes compute when no collision interferes: every
snapshot entry that is neither a directory nor log-named is sent to its
default destination `folder/bucket/name`. -/
def canonPlan (fs0 : FS) (folder : Path) (l : List Path) : List (Path × Path) :=
  l.filterMap (fun p =>
    if fs0.isDir p || strStartsWith (pathName p) logMarker then none
    else some (p, folder ++ [pick_bucket (splitExt (pathName p)).2, pathName p]))

/-- Invariant relating the filesystem `R` of a running non-dry organize to
the initial snapshot `fs0`, after the candidates named `ns` (direct
children of `folder`) have been moved to their default destinations. -/
def RealInv (fs0 : FS) (folder logPath : Path) (R : FS) (ns : List String) : Prop :=
  (∀ q : Path, q ∈ R.files ↔
      ((q ∈ fs0.files ∧ ∀ n ∈ ns, q ≠ folder ++ [n]) ∨ q = logPath ∨
        ∃ n ∈ ns, q = folder ++ [pick_bucket (splitExt n).2, n])) ∧
  R.files.Nodup ∧
  (∀ q : Path, q ∈ fs0.dirs → q ∈ R.dirs) ∧
  (∀ q : Path, q ∈ R.dirs → q ∈ fs0.dirs ∨ ∃ b ∈ bucketNames, q ≠ [] ∧ q <+: folder ++ [b])

-- ===================================================================
-- Helper lemmas
-- ===================================================================

lemma strExt {a b : String} (h : a.data = b.data) : a = b := by
  cases a; cases b; cases h; rfl

lemma strData_append (a b : String) : (a ++ b).data = a.data ++ b.data := rfl

lemma pathExists_true_iff (fs : FS) (p : Path) :
    fs.pathExists p = true ↔ p ∈ fs.files ∨ p ∈ fs.dirs := by
  simp [FS.pathExists]

lemma pathExists_false_iff (fs : FS) (p : Path) :
    fs.pathExists p = false ↔ p ∉ fs.files ∧ p ∉ fs.dirs := by
  simp [FS.pathExists]

lemma digitChar_toNat_of_lt : ∀ d : Nat, d < 10 → (Nat.digitChar d).toNat = 48 + d := by
  decide

lemma decRev_cons (c : Char) (l : List Char) :
    decRev (c :: l) = decRev l * 10 + (c.toNat - 48) := rfl

lemma decRev_natDigitsRev : ∀ fuel n : Nat, n ≤ fuel → decRev (natDigitsRev fuel n) = n := by
  intro fuel
  induction fuel with
  | zero =>
      intro n hn
      have : n = 0 := Nat.le_zero.mp hn
      subst this; rfl
  | succ fuel ih =>
      intro n hn
      by_cases h0 : n = 0
      · subst h0; rfl
      · have hdiv : n / 10 < n := Nat.div_lt_self (Nat.pos_of_ne_zero h0) (by norm_num)
        have hle : n / 10 ≤ fuel := by omega
        have hmod : n % 10 < 10 := Nat.mod_lt _ (by norm_num)
        rw [natDigitsRev, if_neg h0, decRev_cons, ih _ hle, digitChar_toNat_of_lt _ hmod]
        omega

lemma natStr_leftInv (n : Nat) : decRev (natStr n).data.reverse = n := by
  by_cases h0 : n = 0
  · subst h0; rfl
  · rw [natStr, if_neg h0]
    show decRev (natDigitsRev n n).reverse.reverse = n
    rw [List.reverse_reverse]
    exact decRev_natDigitsRev n n le_rfl

lemma natStr_inj {m n : Nat} (h : natStr m = natStr n) : m = n := by
  have hm := natStr_leftInv m
  have hn := natStr_leftInv n
  rw [h] at hm
  omega

lemma natStr_length_pos (n : Nat) : 0 < (natStr n).data.length := by
  by_cases h0 : n = 0
  · subst h0; decide
  · rw [natStr, if_neg h0]
    show 0 < (natDigitsRev n n).reverse.length
    rw [List.length_reverse]
    cases n with
    | zero => exact absurd rfl h0
    | succ m =>
        rw [natDigitsRev, if_neg h0]
        simp

lemma splitExt_recombine (n : String) : (splitExt n).1 ++ (splitExt n).2 = n := by
  simp only [splitExt]
  split_ifs with h1 h2
  · exact strExt (by simp [strData_append])
  · exact strExt (by simp [strData_append])
  · exact strExt (by simp [strData_append])

lemma sdCandidate_inj (dstF : Path) (fn : String) :
    ∀ i j : Nat, sdCandidate dstF fn i = sdCandidate dstF fn j → i = j := by
  have hlast : ∀ x y : String, dstF ++ [x] = dstF ++ [y] → x = y := by
    intro x y h
    have := List.append_cancel_left h
    simpa using this
  have hlen : ∀ k : Nat,
      ((splitExt fn).1 ++ " (" ++ natStr k ++ ")" ++ (splitExt fn).2).data.length =
        (splitExt fn).1.data.length + (natStr k).data.length + 3 +
          (splitExt fn).2.data.length := by
    intro k
    simp [strData_append]
    omega
  have hfnlen : fn.data.length = (splitExt fn).1.data.length + (splitExt fn).2.data.length := by
    conv_lhs => rw [← splitExt_recombine fn]
    simp [strData_append]
  intro i j h
  match i, j with
  | 0, 0 => rfl
  | 0, Nat.succ j =>
      exfalso
      have hx := hlast _ _ h
      have := congrArg (fun s => s.data.length) hx
      simp only at this
      rw [hlen (j + 2)] at this
      have hp := natStr_length_pos (j + 2)
      omega
  | Nat.succ i, 0 =>
      exfalso
      have hx := hlast _ _ h
      have := congrArg (fun s => s.data.length) hx
      simp only at this
      rw [hlen (i + 2)] at this
      have hp := natStr_length_pos (i + 2)
      omega
  | Nat.succ i, Nat.succ j =>
      have hx := hlast _ _ h
      have hdata := congrArg String.data hx
      simp only [strData_append, List.append_assoc] at hdata
      have h1 := List.append_cancel_left hdata
      have h2 := List.append_cancel_left h1
      have h3 := List.append_cancel_right h2
      have := natStr_inj (strExt h3)
      omega

lemma sdAux_found (fs : FS) (dstF : Path) (fn : String) :
    ∀ fuel i : Nat,
      (∃ j, i ≤ j ∧ j < i + fuel ∧ fs.pathExists (sdCandidate dstF fn j) = false) →
      ∃ m, i ≤ m ∧ safeDestinationAux fs dstF fn i fuel = sdCandidate dstF fn m ∧
        fs.pathExists (sdCandidate dstF fn m) = false ∧
        ∀ j, i ≤ j → j < m → fs.pathExists (sdCandidate dstF fn j) = true := by
  intro fuel
  induction fuel with
  | zero =>
      intro i hex
      obtain ⟨j, hij, hlt, _⟩ := hex
      omega
  | succ fuel ih =>
      intro i hex
      by_cases hc : fs.pathExists (sdCandidate dstF fn i) = true
      · obtain ⟨j, hij, hlt, hfree⟩ := hex
        have hji : j ≠ i := by
          intro he
          rw [he, hc] at hfree
          cases hfree
        obtain ⟨m, him, heq, hfreem, hleast⟩ :=
          ih (i + 1) ⟨j, by omega, by omega, hfree⟩
        refine ⟨m, by omega, ?_, hfreem, ?_⟩
        · rw [safeDestinationAux, if_pos hc]
          exact heq
        · intro j h1 h2
          by_cases hji2 : j = i
          · rw [hji2]; exact hc
          · exact hleast j (by omega) h2
      · have hc2 : fs.pathExists (sdCandidate dstF fn i) = false := by
          cases h : fs.pathExists (sdCandidate dstF fn i)
          · rfl
          · exact absurd h hc
        refine ⟨i, le_rfl, ?_, hc2, ?_⟩
        · rw [safeDestinationAux, if_neg hc]
        · intro j h1 h2
          omega

lemma sd_exists_free (fs : FS) (dstF : Path) (fn : String) :
    ∃ j, j ≤ fs.files.length + fs.dirs.length ∧
      fs.pathExists (sdCandidate dstF fn j) = false := by
  by_contra hall
  push_neg at hall
  have hmem : ∀ j ∈ Finset.range (fs.files.length + fs.dirs.length + 1),
      sdCandidate dstF fn j ∈ (fs.files ++ fs.dirs).toFinset := by
    intro j hj
    rw [Finset.mem_range] at hj
    have hne := hall j (by omega)
    have hex : fs.pathExists (sdCandidate dstF fn j) = true := by
      cases h : fs.pathExists (sdCandidate dstF fn j)
      · exact absurd h hne
      · rfl
    rw [pathExists_true_iff] at hex
    rw [List.mem_toFinset, List.mem_append]
    exact hex
  have hinj : Set.InjOn (fun j => sdCandidate dstF fn j)
      (Finset.range (fs.files.length + fs.dirs.length + 1)) := by
    intro a _ b _ h
    exact sdCandidate_inj dstF fn a b h
  have hcard := Finset.card_le_card_of_injOn _ hmem hinj
  rw [Finset.card_range] at hcard
  have hlen := (fs.files ++ fs.dirs).toFinset_card_le
  rw [List.length_append] at hlen
  omega

/-- The collision resolver returns the first non-existing candidate: the
fuel chosen in `safe_destination` always suffices. -/
lemma sd_spec (fs : FS) (dstF : Path) (fn : String) :
    ∃ m, safe_destination fs dstF fn = sdCandidate dstF fn m ∧
      fs.pathExists (sdCandidate dstF fn m) = false ∧
      ∀ j, j < m → fs.pathExists (sdCandidate dstF fn j) = true := by
  obtain ⟨j, hj, hfree⟩ := sd_exists_free fs dstF fn
  obtain ⟨m, _, heq, hfreem, hleast⟩ :=
    sdAux_found fs dstF fn (fs.files.length + fs.dirs.length + 1) 0
      ⟨j, Nat.zero_le j, by omega, hfree⟩
  exact ⟨m, heq, hfreem, fun j h => hleast j (Nat.zero_le j) h⟩

lemma sd_fresh (fs : FS) (dstF : Path) (fn : String) :
    fs.pathExists (safe_destination fs dstF fn) = false := by
  obtain ⟨m, heq, hfree, _⟩ := sd_spec fs dstF fn
  rw [heq]
  exact hfree

lemma sd_of_head_free (fs : FS) (dstF : Path) (fn : String)
    (h : fs.pathExists (dstF ++ [fn]) = false) :
    safe_destination fs dstF fn = dstF ++ [fn] := by
  obtain ⟨m, heq, hfree, hleast⟩ := sd_spec fs dstF fn
  cases m with
  | zero => exact heq
  | succ m =>
      have h0 := hleast 0 (Nat.succ_pos m)
      rw [show sdCandidate dstF fn 0 = dstF ++ [fn] from rfl] at h0
      rw [h0] at h
      cases h

lemma organizeStep_dry_fs (folder : Path) (acc : FS × List (Path × Path) × Nat) (p : Path) :
    (organizeStep folder true acc p).1 = acc.1 := by
  rw [organizeStep]
  split_ifs <;> rfl

lemma organize_dry_foldl_fs (folder : Path) :
    ∀ (l : List Path) (acc : FS × List (Path × Path) × Nat),
      (l.foldl (organizeStep folder true) acc).1 = acc.1 := by
  intro l
  induction l with
  | nil => intro acc; rfl
  | cons p rest ih =>
      intro acc
      rw [List.foldl_cons, ih, organizeStep_dry_fs]

lemma undoStep_msgs_length (d : Bool) (acc : FS × List UndoMsg) (entry : Path × Path) :
    ((undoStep d acc entry).2).length = acc.2.length + 1 := by
  rw [undoStep]
  split_ifs <;> simp

lemma undo_foldl_msgs_length (d : Bool) :
    ∀ (l : List (Path × Path)) (acc : FS × List UndoMsg),
      ((l.foldl (undoStep d) acc).2).length = acc.2.length + l.length := by
  intro l
  induction l with
  | nil => intro acc; simp
  | cons e rest ih =>
      intro acc
      rw [List.foldl_cons, ih, undoStep_msgs_length]
      simp
      omega

lemma isPrefixOf_append_self (l t : List Char) : l.isPrefixOf (l ++ t) = true := by
  induction l with
  | nil => simp [List.isPrefixOf]
  | cons c l ih => simp [List.isPrefixOf, ih]

lemma getLastD_concat_eq : ∀ (q : List String) (d x : String), (q ++ [x]).getLastD d = x := by
  intro q
  induction q with
  | nil => intro d x; rfl
  | cons a q ih =>
      intro d x
      rw [List.cons_append, List.getLastD_cons, ih]

lemma pathName_concat (q : Path) (x : String) : pathName (q ++ [x]) = x :=
  getLastD_concat_eq q "" x

lemma logName_startsWith (ts : String) :
    strStartsWith (logMarker ++ ts ++ ".txt") logMarker = true := by
  rw [strStartsWith]
  show logMarker.data.isPrefixOf ((logMarker ++ ts ++ ".txt").data) = true
  rw [strData_append, strData_append, List.append_assoc]
  exact isPrefixOf_append_self _ _

lemma organizeStep_skip (folder : Path) (d : Bool) (acc : FS × List (Path × Path) × Nat)
    (p : Path) (h : acc.1.isDir p = true ∨ strStartsWith (pathName p) logMarker = true) :
    organizeStep folder d acc p = acc := by
  rw [organizeStep]
  by_cases hd : acc.1.isDir p = true
  · rw [if_pos hd]
  · rcases h with h | h
    · exact absurd h hd
    · rw [if_neg hd, if_pos h]

lemma organize_foldl_skip (folder : Path) (d : Bool) :
    ∀ (l : List Path) (acc : FS × List (Path × Path) × Nat),
      (∀ p ∈ l, acc.1.isDir p = true ∨ strStartsWith (pathName p) logMarker = true) →
      l.foldl (organizeStep folder d) acc = acc := by
  intro l
  induction l with
  | nil => intro acc _; rfl
  | cons p rest ih =>
      intro acc h
      rw [List.foldl_cons, organizeStep_skip folder d acc p (h p (by simp))]
      exact ih acc (fun q hq => h q (by simp [hq]))

lemma pathName_eq_getLast (p : Path) (h : p ≠ []) : pathName p = p.getLast h := by
  rw [pathName, List.getLastD_eq_getLast?, List.getLast?_eq_getLast p h]
  rfl

lemma eq_concat_of_dropLast {p folder : Path} (h1 : p ≠ []) (h2 : p.dropLast = folder) :
    p = folder ++ [pathName p] := by
  conv_lhs => rw [← List.dropLast_append_getLast h1]
  rw [h2, pathName_eq_getLast p h1]

lemma concat_inj_last {folder : Path} {x y : String} (h : folder ++ [x] = folder ++ [y]) :
    x = y := by
  have h2 := List.append_cancel_left h
  simpa using h2

lemma pick_bucket_mem_bucketNames (e : String) : pick_bucket e ∈ bucketNames := by
  rw [pick_bucket]
  split_ifs with h
  · decide
  · rcases hfind : CATEGORIES.find? (fun be =>
        decide ((strLStripDot (strLower e)) ∈ be.2)) with _ | be
    · rw [hfind]
      decide
    · rw [hfind]
      have hbe := List.mem_of_find?_eq_some hfind
      rw [bucketNames]
      exact List.mem_append_left _ (List.mem_map_of_mem Prod.fst hbe)


lemma canonPlan_cons_skip (fs0 : FS) (folder : Path) (p : Path) (rest : List Path)
    (h : fs0.isDir p = true ∨ strStartsWith (pathName p) logMarker = true) :
    canonPlan fs0 folder (p :: rest) = canonPlan fs0 folder rest := by
  have hcond : (fs0.isDir p || strStartsWith (pathName p) logMarker) = true := by
    rcases h with h | h <;> simp [h]
  simp only [canonPlan, List.filterMap_cons]
  rw [if_pos hcond]

lemma canonPlan_cons_keep (fs0 : FS) (folder : Path) (p : Path) (rest : List Path)
    (hdir : fs0.isDir p = false) (hmark : strStartsWith (pathName p) logMarker = false) :
    canonPlan fs0 folder (p :: rest) =
      (p, folder ++ [pick_bucket (splitExt (pathName p)).2, pathName p]) ::
        canonPlan fs0 folder rest := by
  simp only [canonPlan, List.filterMap_cons]
  rw [if_neg (by simp [hdir, hmark])]

lemma canonPlan_nil_of_skip (fs0 : FS) (folder : Path) :
    ∀ l : List Path,
      (∀ p ∈ l, fs0.isDir p = true ∨ strStartsWith (pathName p) logMarker = true) →
      canonPlan fs0 folder l = [] := by
  intro l
  induction l with
  | nil => intro _; rfl
  | cons p rest ih =>
      intro h
      rw [canonPlan_cons_skip fs0 folder p rest (h p (by simp))]
      exact ih (fun q hq => h q (List.mem_cons_of_mem p hq))

lemma organizeStep_process (folder : Path) (d : Bool) (acc : FS × List (Path × Path) × Nat)
    (p : Path) (hdir : acc.1.isDir p = false)
    (hmark : strStartsWith (pathName p) logMarker = false) (hdrop : p.dropLast = folder) :
    organizeStep folder d acc p =
      ((move_file acc.1 p
          (safe_destination acc.1 (folder ++ [pick_bucket (splitExt (pathName p)).2])
            (pathName p)) d true).1,
        acc.2.1 ++ [(p, safe_destination acc.1 (folder ++ [pick_bucket (splitExt (pathName p)).2])
          (pathName p))],
        acc.2.2 + 1) := by
  rw [organizeStep, if_neg (by simp [hdir]), if_neg (by simp [hmark]), if_neg (by simp [hdrop])]

lemma organize_dry_fold (fs0 : FS) (folder : Path)
    (hdisj : ∀ p ∈ fs0.files, p ∉ fs0.dirs)
    (h3 : ∀ p ∈ fs0.files, p ≠ [] → p.dropLast = folder →
      strStartsWith (pathName p) logMarker = false →
      fs0.pathExists (folder ++ [pick_bucket (splitExt (pathName p)).2, pathName p]) = false) :
    ∀ (l : List Path) (pl : List (Path × Path)) (c : Nat),
      (∀ p ∈ l, p ≠ [] ∧ p.dropLast = folder ∧ (p ∈ fs0.dirs ∨ p ∈ fs0.files)) →
      l.foldl (organizeStep folder true) (fs0, pl, c) =
        (fs0, pl ++ canonPlan fs0 folder l, c + (canonPlan fs0 folder l).length) := by
  intro l
  induction l with
  | nil =>
      intro pl c _
      simp [canonPlan]
  | cons p rest ih =>
      intro pl c h
      obtain ⟨hne, hdrop, hmem⟩ := h p (by simp)
      have hrest := fun q hq => h q (List.mem_cons_of_mem p hq)
      rcases hmem with hdir | hfile
      · have hdirb : fs0.isDir p = true := by
          simp [FS.isDir]
          exact hdir
        rw [List.foldl_cons, organizeStep_skip folder true _ p (Or.inl hdirb), ih pl c hrest,
          canonPlan_cons_skip fs0 folder p rest (Or.inl hdirb)]
      · by_cases hmark : strStartsWith (pathName p) logMarker = true
        · rw [List.foldl_cons, organizeStep_skip folder true _ p (Or.inr hmark), ih pl c hrest,
            canonPlan_cons_skip fs0 folder p rest (Or.inr hmark)]
        · have hmarkf : strStartsWith (pathName p) logMarker = false := by
            cases hx : strStartsWith (pathName p) logMarker
            · rfl
            · exact absurd hx hmark
          have hdirf : fs0.isDir p = false := by
            simp [FS.isDir]
            exact hdisj p hfile
          have hsd : safe_destination fs0 (folder ++ [pick_bucket (splitExt (pathName p)).2])
              (pathName p) =
              (folder ++ [pick_bucket (splitExt (pathName p)).2]) ++ [pathName p] := by
            apply sd_of_head_free
            have hfree := h3 p hfile hne hdrop hmarkf
            simpa [List.append_assoc] using hfree
          rw [List.foldl_cons, organizeStep_process folder true (fs0, pl, c) p hdirf hmarkf hdrop]
          rw [show (move_file fs0 p (safe_destination fs0
              (folder ++ [pick_bucket (splitExt (pathName p)).2]) (pathName p)) true true).1 = fs0
            from rfl]
          rw [ih _ _ hrest, canonPlan_cons_keep fs0 folder p rest hdirf hmarkf]
          refine congrArg (Prod.mk fs0) (congrArg₂ Prod.mk ?_ ?_)
          · rw [hsd]
            simp [List.append_assoc]
          · simp [List.length_cons]
            omega

lemma length_concat_pair (folder : Path) (a b : String) :
    (folder ++ [a, b]).length = folder.length + 2 := by
  simp

lemma length_concat_one (folder : Path) (a : String) :
    (folder ++ [a]).length = folder.length + 1 := by
  simp

lemma concat_pair_inj {folder : Path} {a b x y : String}
    (h : folder ++ [a, b] = folder ++ [x, y]) : a = x ∧ b = y := by
  have h2 := List.append_cancel_left h
  injection h2 with h3 h4
  injection h4 with h5 h6
  exact ⟨h3, h5⟩

lemma RealInv_step (fs0 : FS) (folder : Path) (ts : String) (R : FS) (ns : List String)
    (p : Path) (np : String)
    (hshape : p = folder ++ [np])
    (hmarkf : strStartsWith np logMarker = false)
    (hInv : RealInv fs0 folder (folder ++ [logMarker ++ ts ++ ".txt"]) R ns)
    (hc0files : (folder ++ [pick_bucket (splitExt np).2, np]) ∉ R.files) :
    RealInv fs0 folder (folder ++ [logMarker ++ ts ++ ".txt"])
      ((R.ensureDir (folder ++ [pick_bucket (splitExt np).2])).moveFile p
        ((folder ++ [pick_bucket (splitExt np).2]) ++ [np])) (ns ++ [np]) := by
  obtain ⟨hfiles, hnodupF, hdirLo, hdirHi⟩ := hInv
  have hdsteq : (folder ++ [pick_bucket (splitExt np).2]) ++ [np] =
      folder ++ [pick_bucket (splitExt np).2, np] := by simp
  have hplp : p ≠ folder ++ [logMarker ++ ts ++ ".txt"] := by
    intro he
    rw [hshape] at he
    have := concat_inj_last he
    rw [this] at hmarkf
    rw [logName_startsWith ts] at hmarkf
    cases hmarkf
  have hdstfresh : (folder ++ [pick_bucket (splitExt np).2]) ++ [np] ∉ R.files := by
    rw [hdsteq]
    exact hc0files
  have hmemFiles : ∀ q : Path,
      q ∈ ((R.ensureDir (folder ++ [pick_bucket (splitExt np).2])).moveFile p
        ((folder ++ [pick_bucket (splitExt np).2]) ++ [np])).files ↔
      (q ∈ R.files ∧ q ≠ p) ∨ q = (folder ++ [pick_bucket (splitExt np).2]) ++ [np] := by
    intro q
    show q ∈ R.files.erase p ++ [(folder ++ [pick_bucket (splitExt np).2]) ++ [np]] ↔ _
    rw [List.mem_append, List.mem_singleton, hnodupF.mem_erase_iff]
    tauto
  refine ⟨?_, ?_, ?_, ?_⟩
  · intro q
    rw [hmemFiles q, hfiles q]
    constructor
    · rintro (⟨hq | hq | hq, hqp⟩ | hq)
      · refine Or.inl ⟨hq.1, ?_⟩
        intro n hn
        rw [List.mem_append, List.mem_singleton] at hn
        rcases hn with hn | hn
        · exact hq.2 n hn
        · rw [hn, ← hshape]
          exact hqp
      · exact Or.inr (Or.inl hq)
      · refine Or.inr (Or.inr ?_)
        obtain ⟨n, hn, hqe⟩ := hq
        exact ⟨n, by simp [hn], hqe⟩
      · refine Or.inr (Or.inr ⟨np, by simp, ?_⟩)
        rw [hq, hdsteq]
    · rintro (⟨hq, hqs⟩ | hq | ⟨n, hn, hqe⟩)
      · refine Or.inl ⟨Or.inl ⟨hq, ?_⟩, ?_⟩
        · intro n hn
          exact hqs n (by simp [hn])
        · rw [hshape]
          exact hqs np (by simp)
      · refine Or.inl ⟨Or.inr (Or.inl hq), ?_⟩
        rw [hq]
        intro he
        exact hplp he.symm
      · rw [List.mem_append, List.mem_singleton] at hn
        rcases hn with hn | hn
        · refine Or.inl ⟨Or.inr (Or.inr ⟨n, hn, hqe⟩), ?_⟩
          rw [hqe, hshape]
          intro he
          have hlen := congrArg List.length he
          rw [length_concat_pair, length_concat_one] at hlen
          omega
        · refine Or.inr ?_
          rw [hqe, hn, ← hdsteq]
  · show (R.files.erase p ++ [(folder ++ [pick_bucket (splitExt np).2]) ++ [np]]).Nodup
    rw [List.nodup_append]
    refine ⟨hnodupF.erase p, by simp, ?_⟩
    intro x hx
    simp only [List.mem_singleton]
    intro he
    rw [he] at hx
    exact hdstfresh (List.mem_of_mem_erase hx)
  · intro q hq
    show q ∈ R.dirs ++ _
    exact List.mem_append_left _ (hdirLo q hq)
  · intro q hq
    rw [show ((R.ensureDir (folder ++ [pick_bucket (splitExt np).2])).moveFile p
        ((folder ++ [pick_bucket (splitExt np).2]) ++ [np])).dirs =
        R.dirs ++ (ancestorsOf (folder ++ [pick_bucket (splitExt np).2])).filter
          (fun q => decide (q ∉ R.dirs)) from rfl, List.mem_append] at hq
    rcases hq with hq | hq
    · exact hdirHi q hq
    · have hq2 := List.mem_of_mem_filter hq
      rw [ancestorsOf, List.mem_map] at hq2
      obtain ⟨i, hi, hqe⟩ := hq2
      rw [List.mem_range, length_concat_one] at hi
      refine Or.inr ⟨pick_bucket (splitExt np).2, pick_bucket_mem_bucketNames _, ?_, ?_⟩
      · rw [← hqe]
        intro hnil
        have := congrArg List.length hnil
        rw [List.length_take, length_concat_one] at this
        simp at this
      · rw [← hqe]
        exact List.take_prefix (i + 1) _

lemma move_file_real_fst (R : FS) (p dstF : Path) (x : String) :
    (move_file R p (dstF ++ [x]) false true).1 = (R.ensureDir dstF).moveFile p (dstF ++ [x]) := by
  simp [move_file, List.dropLast_concat]

lemma organize_real_fold (fs0 : FS) (folder : Path) (ts : String)
    (hdisj : ∀ p ∈ fs0.files, p ∉ fs0.dirs)
    (h3 : ∀ p ∈ fs0.files, p ≠ [] → p.dropLast = folder →
      strStartsWith (pathName p) logMarker = false →
      fs0.pathExists (folder ++ [pick_bucket (splitExt (pathName p)).2, pathName p]) = false ∧
        pathName p ∉ bucketNames) :
    ∀ (l : List Path) (ns : List String) (R : FS) (pl : List (Path × Path)) (c : Nat),
      (∀ p ∈ l, p ≠ [] ∧ p.dropLast = folder ∧
        (p ∈ fs0.dirs ∨ p = folder ++ [logMarker ++ ts ++ ".txt"] ∨ p ∈ fs0.files)) →
      (ns ++ l.map pathName).Nodup →
      RealInv fs0 folder (folder ++ [logMarker ++ ts ++ ".txt"]) R ns →
      (l.foldl (organizeStep folder false) (R, pl, c)).2.1 = pl ++ canonPlan fs0 folder l ∧
      (l.foldl (organizeStep folder false) (R, pl, c)).2.2 =
        c + (canonPlan fs0 folder l).length := by
  intro l
  induction l with
  | nil =>
      intro ns R pl c _ _ _
      simp [canonPlan]
  | cons p rest ih =>
      intro ns R pl c hl hnn hInv
      obtain ⟨hne, hdrop, hmem3⟩ := hl p (by simp)
      have hrest := fun q hq => hl q (List.mem_cons_of_mem p hq)
      have hshape := eq_concat_of_dropLast hne hdrop
      have hnn2 : (ns ++ rest.map pathName).Nodup := by
        rw [List.map_cons] at hnn
        exact hnn.sublist (List.Sublist.append_left (List.sublist_cons_self _ _) ns)
      rcases hmem3 with hdir | hlp | hfile
      · have hdirb : R.isDir p = true := by
          simp only [FS.isDir, decide_eq_true_eq]
          exact hInv.2.2.1 p hdir
        have hdirb0 : fs0.isDir p = true := by
          simp only [FS.isDir, decide_eq_true_eq]
          exact hdir
        rw [List.foldl_cons, organizeStep_skip folder false (R, pl, c) p (Or.inl hdirb),
          canonPlan_cons_skip fs0 folder p rest (Or.inl hdirb0)]
        exact ih ns R pl c hrest hnn2 hInv
      · have hmark : strStartsWith (pathName p) logMarker = true := by
          rw [hlp, pathName_concat]
          exact logName_startsWith ts
        rw [List.foldl_cons, organizeStep_skip folder false (R, pl, c) p (Or.inr hmark),
          canonPlan_cons_skip fs0 folder p rest (Or.inr hmark)]
        exact ih ns R pl c hrest hnn2 hInv
      · by_cases hmarkT : strStartsWith (pathName p) logMarker = true
        · rw [List.foldl_cons, organizeStep_skip folder false (R, pl, c) p (Or.inr hmarkT),
            canonPlan_cons_skip fs0 folder p rest (Or.inr hmarkT)]
          exact ih ns R pl c hrest hnn2 hInv
        · have hmarkf : strStartsWith (pathName p) logMarker = false := by
            cases hx : strStartsWith (pathName p) logMarker
            · rfl
            · exact absurd hx hmarkT
          obtain ⟨hfree0, hnb⟩ := h3 p hfile hne hdrop hmarkf
          have hnotin : pathName p ∉ ns := by
            intro hin
            have hd := (List.nodup_append.mp hnn).2.2
            exact hd hin (by simp)
          have hdirf : R.isDir p = false := by
            simp only [FS.isDir, decide_eq_false_iff_not]
            intro hin
            rcases hInv.2.2.2 p hin with hin2 | ⟨b, hb, _, hpre⟩
            · exact hdisj p hfile hin2
            · rw [hshape] at hpre
              have heq := hpre.eq_of_length (by rw [length_concat_one, length_concat_one])
              have hx := concat_inj_last heq
              rw [← hx] at hb
              exact hnb hb
          have hdirf0 : fs0.isDir p = false := by
            simp only [FS.isDir, decide_eq_false_iff_not]
            exact hdisj p hfile
          have hc0 : R.pathExists
              (folder ++ [pick_bucket (splitExt (pathName p)).2, pathName p]) = false := by
            rw [pathExists_false_iff]
            constructor
            · intro hin
              rw [hInv.1 _] at hin
              rcases hin with ⟨hin, _⟩ | hin | ⟨n, hn, hqe⟩
              · rw [pathExists_false_iff] at hfree0
                exact hfree0.1 hin
              · have hlen := congrArg List.length hin
                rw [length_concat_pair, length_concat_one] at hlen
                omega
              · have hinj := concat_pair_inj hqe
                rw [← hinj.2] at hn
                exact hnotin hn
            · intro hin
              rcases hInv.2.2.2 _ hin with hin2 | ⟨b, _, _, hpre⟩
              · rw [pathExists_false_iff] at hfree0
                exact hfree0.2 hin2
              · have hlen := hpre.length_le
                rw [length_concat_pair, length_concat_one] at hlen
                omega
          have hc0r : R.pathExists
              ((folder ++ [pick_bucket (splitExt (pathName p)).2]) ++ [pathName p]) = false := by
            simpa [List.append_assoc] using hc0
          have hsd := sd_of_head_free R (folder ++ [pick_bucket (splitExt (pathName p)).2])
            (pathName p) hc0r
          have hnn3 : ((ns ++ [pathName p]) ++ rest.map pathName).Nodup := by
            rw [List.append_assoc, List.singleton_append]
            rw [List.map_cons] at hnn
            exact hnn
          have hc0files : (folder ++ [pick_bucket (splitExt (pathName p)).2, pathName p])
              ∉ R.files := by
            rw [pathExists_false_iff] at hc0
            exact hc0.1
          have hInv2 := RealInv_step fs0 folder ts R ns p (pathName p) hshape hmarkf
            hInv hc0files
          rw [List.foldl_cons, organizeStep_process folder false (R, pl, c) p hdirf hmarkf hdrop,
            hsd, move_file_real_fst]
          obtain ⟨ih1, ih2⟩ := ih (ns ++ [pathName p])
            ((R.ensureDir (folder ++ [pick_bucket (splitExt (pathName p)).2])).moveFile p
              ((folder ++ [pick_bucket (splitExt (pathName p)).2]) ++ [pathName p]))
            (pl ++ [(p, (folder ++ [pick_bucket (splitExt (pathName p)).2]) ++ [pathName p])])
            (c + 1) hrest hnn3 hInv2
          rw [canonPlan_cons_keep fs0 folder p rest hdirf0 hmarkf]
          constructor
          · rw [ih1]
            simp [List.append_assoc]
          · rw [ih2]
            simp [List.length_cons]
            omega

lemma canonPlan_append (fs0 : FS) (folder : Path) (l t : List Path) :
    canonPlan fs0 folder (l ++ t) = canonPlan fs0 folder l ++ canonPlan fs0 folder t := by
  simp only [canonPlan, List.filterMap_append]

lemma listDir_mem_props (fs : FS) (folder p : Path) (hp : p ∈ fs.listDir folder) :
    p ≠ [] ∧ p.dropLast = folder ∧ (p ∈ fs.files ∨ p ∈ fs.dirs) := by
  rw [FS.listDir, List.mem_filter] at hp
  obtain ⟨hm, hc⟩ := hp
  rw [List.mem_append] at hm
  have hc2 : p ≠ [] ∧ p.dropLast = folder := by simpa using hc
  exact ⟨hc2.1, hc2.2, hm⟩

lemma listDir_nodup (fs : FS) (folder : Path) (h : (fs.files ++ fs.dirs).Nodup) :
    (fs.listDir folder).Nodup :=
  h.filter _

lemma listDir_names_nodup (fs : FS) (folder : Path) (h : (fs.files ++ fs.dirs).Nodup) :
    ((fs.listDir folder).map pathName).Nodup := by
  refine (listDir_nodup fs folder h).map_on ?_
  intro x hx y hy hxy
  obtain ⟨hxne, hxdrop, _⟩ := listDir_mem_props fs folder x hx
  obtain ⟨hyne, hydrop, _⟩ := listDir_mem_props fs folder y hy
  rw [eq_concat_of_dropLast hxne hxdrop, eq_concat_of_dropLast hyne hydrop, hxy]

-- ===================================================================
-- Claim theorems
-- ===================================================================

/-- C3 counterexample: on the input `"."` — a string consisting only of the
separator — `pick_bucket` returns the other bucket, not the reserved
no-extension bucket the claim demands. -/
theorem pick_bucket_separator_only_cex :
    pick_bucket "." = OTHER_BUCKET ∧ pick_bucket "." ≠ NOEXT_BUCKET := by
  decide

/-- C3 amended: `pick_bucket` tests emptiness of the *raw* input before any
normalization.  An empty input yields the no-extension bucket; a non-empty
input is lowercased, its leading separators are stripped, and the result is
looked up in the category table — so a non-empty input that normalizes to
empty (such as `"."`) falls through to the other bucket instead of the
no-extension bucket.  On all other inputs the code agrees with the
spec-ordered classifier `pickBucketSpec`. -/
theorem pick_bucket_normalization (ext : String) :
    pick_bucket ext =
      if strLStripDot (strLower ext) = "" ∧ ext ≠ "" then OTHER_BUCKET
      else pickBucketSpec ext := by
  by_cases h0 : ext = ""
  · subst h0
    decide
  · by_cases he : strLStripDot (strLower ext) = ""
    · rw [if_pos ⟨he, h0⟩]
      simp only [pick_bucket, if_neg h0, he]
      rfl
    · rw [if_neg (by tauto)]
      simp only [pick_bucket, pickBucketSpec, if_neg h0, if_neg he]

/-- C5: a dry-run organize leaves the filesystem completely unchanged: no
file is moved, no directory is created, and no move-log file is created. -/
theorem organize_dry_run_no_effects (fs : FS) (folder : Path) (ts : String) :
    (organize fs folder true ts).1 = fs := by
  rw [organize]
  split_ifs with h h2
  · rfl
  · exact organize_dry_foldl_fs folder _ _
  · exact absurd rfl h2

/-- C6: `safe_destination` returns the candidate at the least index whose
path does not exist — candidate `0` is `dst_folder/filename` itself, and
candidate `i + 1` is `dst_folder/"{stem} ({i + 2}){ext}"`, so the probe
order is the original name followed by the suffixes `(2), (3), (4), …`,
each preserving the original extension. -/
theorem safe_destination_least (fs : FS) (dstFolder : Path) (filename : String) (i : Nat)
    (hbefore : ∀ j, j < i → fs.pathExists (sdCandidate dstFolder filename j) = true)
    (hfree : fs.pathExists (sdCandidate dstFolder filename i) = false) :
    safe_destination fs dstFolder filename = sdCandidate dstFolder filename i := by
  obtain ⟨m, heq, hfreem, hleast⟩ := sd_spec fs dstFolder filename
  rcases lt_trichotomy m i with h | h | h
  · have hh := hbefore m h
    rw [hh] at hfreem
    cases hfreem
  · rw [heq, h]
  · have hh := hleast i h
    rw [hfree] at hh
    cases hh

/-- C6 witness: with `d/a.jpg` occupied, the resolver skips candidate 0 and
returns `d/a (2).jpg`. -/
theorem safe_destination_least_witness :
    safe_destination ⟨[["d", "a.jpg"]], [["d"]]⟩ ["d"] "a.jpg" = ["d", "a (2).jpg"] := by
  have h := safe_destination_least ⟨[["d", "a.jpg"]], [["d"]]⟩ ["d"] "a.jpg" 1
    (by intro j hj; interval_cases j; decide) (by decide)
  rw [h]
  decide

/-- C9: `safe_destination` always terminates successfully on a finite
filesystem: it returns one of its candidate paths, and that path does not
exist (the incrementing-suffix search always reaches a fresh candidate). -/
theorem safe_destination_terminates (fs : FS) (dstFolder : Path) (filename : String) :
    ∃ i, safe_destination fs dstFolder filename = sdCandidate dstFolder filename i ∧
      fs.pathExists (sdCandidate dstFolder filename i) = false := by
  obtain ⟨m, heq, hfree, _⟩ := sd_spec fs dstFolder filename
  exact ⟨m, heq, hfree⟩

/-- C8: on a root that is not a directory, `organize` reports the error and
exits non-zero with the filesystem untouched (in particular no log file is
created); on a missing log file, `undo` reports the error and exits
non-zero with the filesystem untouched. -/
theorem usage_errors_no_side_effects (fs : FS) (folder logFile : Path)
    (records : List (Path × Path)) (dryRun : Bool) (ts : String) :
    (fs.isDir folder = false →
      organize fs folder dryRun ts = (fs, Except.error "Not a directory")) ∧
    (fs.pathExists logFile = false →
      undo fs logFile records dryRun = (fs, Except.error "Log file not found")) := by
  constructor
  · intro h
    rw [organize, if_pos h]
  · intro h
    rw [undo, if_pos h]

/-- C8 witness on an empty filesystem. -/
theorem usage_errors_no_side_effects_witness :
    (FS.isDir ⟨[], []⟩ ["x"] = false ∧
      organize ⟨[], []⟩ ["x"] false "T" = (⟨[], []⟩, Except.error "Not a directory")) ∧
    (FS.pathExists ⟨[], []⟩ ["lg"] = false ∧
      undo ⟨[], []⟩ ["lg"] [] false = (⟨[], []⟩, Except.error "Log file not found")) :=
  ⟨⟨by decide, (usage_errors_no_side_effects ⟨[], []⟩ ["x"] ["lg"] [] false "T").1 (by decide)⟩,
   ⟨by decide, (usage_errors_no_side_effects ⟨[], []⟩ ["x"] ["lg"] [] false "T").2 (by decide)⟩⟩

/-- C7: when the log exists, `undo` never aborts: it returns a report for
every record (one message per record), and any record whose destination no
longer exists is reported as missing with the state unchanged, processing
continuing with the remaining records. -/
theorem undo_missing_skips_and_continues (fs : FS) (logFile : Path)
    (records : List (Path × Path)) (h : fs.pathExists logFile = true) :
    (∃ msgs, (undo fs logFile records false).2 = Except.ok msgs ∧
      msgs.length = records.length) ∧
    (∀ (fs2 : FS) (msgs : List UndoMsg) (src dst : Path),
      fs2.pathExists dst = false →
      undoStep false (fs2, msgs) (src, dst) = (fs2, msgs ++ [UndoMsg.missing dst])) := by
  constructor
  · refine ⟨(records.reverse.foldl (undoStep false) (fs, [])).2, ?_, ?_⟩
    · rw [undo, if_neg (by simp [h])]
    · rw [undo_foldl_msgs_length]
      simp
  · intro fs2 msgs src dst hdst
    simp [undoStep, hdst]

/-- C7 witness: a two-record log whose most recent destination vanished is
reported missing and the older record is still undone. -/
theorem undo_missing_skips_and_continues_witness :
    FS.pathExists ⟨[["lg"], ["d", "images", "a.jpg"]], [["d"], ["d", "images"]]⟩ ["lg"] = true ∧
    ∃ msgs,
      (undo ⟨[["lg"], ["d", "images", "a.jpg"]], [["d"], ["d", "images"]]⟩ ["lg"]
        [(["d", "a.jpg"], ["d", "images", "a.jpg"]), (["d", "b.pdf"], ["d", "docs", "b.pdf"])]
        false).2 = Except.ok msgs ∧
      msgs.length = 2 :=
  ⟨by decide,
   (undo_missing_skips_and_continues ⟨[["lg"], ["d", "images", "a.jpg"]], [["d"], ["d", "images"]]⟩
      ["lg"] [(["d", "a.jpg"], ["d", "images", "a.jpg"]), (["d", "b.pdf"], ["d", "docs", "b.pdf"])]
      (by decide)).1⟩

/-- C2 counterexample: for the record `(r/a.jpg, r/images/a (2).jpg)` on a
filesystem where both `r/a.jpg` and `r/a (2).jpg` are now occupied, `undo`
restores to `r/a (2) (2).jpg` — the resolver applied to the *moved
destination's* filename — whereas the claim demands the resolver applied to
the original source's filename, which yields the different path
`r/a (3).jpg`. -/
theorem undo_collision_target_cex :
    (undoStep false (cexC2FS, []) (["r", "a.jpg"], ["r", "images", "a (2).jpg"])).2 =
      [UndoMsg.undid ["r", "images", "a (2).jpg"] ["r", "a (2) (2).jpg"]] ∧
    safe_destination cexC2FS ["r"] "a.jpg" = ["r", "a (3).jpg"] ∧
    (["r", "a (2) (2).jpg"] : Path) ≠ ["r", "a (3).jpg"] := by
  decide

/-- C2 amended: when both the moved destination and the original source
exist, the restore target is the Collision Resolver applied to the original
source's parent folder and the *moved destination's* filename; that target
never exists beforehand and is distinct from the occupied original source,
so the restored file never overwrites the occupying file (it carries the
original source's name disambiguated only when the move did not rename the
file). -/
theorem undo_collision_restore_target (fs : FS) (msgs : List UndoMsg) (src dst : Path)
    (h1 : fs.pathExists dst = true) (h2 : fs.pathExists src = true) :
    ∃ t, undoStep false (fs, msgs) (src, dst) =
        ((fs.ensureDir t.dropLast).moveFile dst t, msgs ++ [UndoMsg.undid dst t]) ∧
      t = safe_destination fs src.dropLast (pathName dst) ∧
      fs.pathExists t = false ∧ t ≠ src := by
  refine ⟨safe_destination fs src.dropLast (pathName dst), ?_, rfl, sd_fresh _ _ _, ?_⟩
  · simp [undoStep, h1, h2]
  · intro he
    have hf := sd_fresh fs src.dropLast (pathName dst)
    rw [he, h2] at hf
    cases hf

/-- C2 witness: on the collision fixture the restore lands on a fresh path
distinct from the occupied source. -/
theorem undo_collision_restore_target_witness :
    FS.pathExists cexC2FS ["r", "images", "a (2).jpg"] = true ∧
    FS.pathExists cexC2FS ["r", "a.jpg"] = true ∧
    ∃ t, undoStep false (cexC2FS, []) (["r", "a.jpg"], ["r", "images", "a (2).jpg"]) =
        ((cexC2FS.ensureDir t.dropLast).moveFile ["r", "images", "a (2).jpg"] t,
          [UndoMsg.undid ["r", "images", "a (2).jpg"] t]) ∧
      t = safe_destination cexC2FS ["r"] "a (2).jpg" ∧
      cexC2FS.pathExists t = false ∧ t ≠ ["r", "a.jpg"] := by
  refine ⟨by decide, by decide, ?_⟩
  have h := undo_collision_restore_target cexC2FS [] ["r", "a.jpg"]
    ["r", "images", "a (2).jpg"] (by decide) (by decide)
  simpa using h

lemma organize_run (fs : FS) (folder : Path) (d : Bool) (ts : String)
    (h : fs.isDir folder = true) (fs1 : FS)
    (hfs1 : fs1 =
      if d then fs else { fs with files := fs.files ++ [folder ++ [logMarker ++ ts ++ ".txt"]] })
    (r : FS × List (Path × Path) × Nat)
    (hr : r = (fs1.listDir folder).foldl (organizeStep folder d) (fs1, [], 0)) :
    organize fs folder d ts =
      (r.1, Except.ok (r.2.1, r.2.2, folder ++ [logMarker ++ ts ++ ".txt"])) := by
  subst hfs1
  subst hr
  rw [organize, if_neg (by simp [h])]

/-- C10: on an existing directory all of whose direct-child regular files
are themselves log files (in particular, a directory with no candidate
files at all), a non-dry `organize` still creates the move log inside the
root before enumerating, processes zero files, and its only filesystem
effect is that log file. -/
theorem organize_no_candidates_creates_log (fs : FS) (folder : Path) (ts : String)
    (h1 : fs.isDir folder = true)
    (h2 : ∀ p ∈ fs.files, p ≠ [] → p.dropLast = folder →
      strStartsWith (pathName p) logMarker = true) :
    organize fs folder false ts =
      ({ fs with files := fs.files ++ [folder ++ [logMarker ++ ts ++ ".txt"]] },
        Except.ok ([], 0, folder ++ [logMarker ++ ts ++ ".txt"])) := by
  have hrun := organize_run fs folder false ts h1 _ rfl _ rfl
  rw [if_neg (by simp)] at hrun
  rw [organize_foldl_skip folder false _ _ ?_] at hrun
  · exact hrun
  · intro p hp
    rw [FS.listDir, List.mem_filter] at hp
    obtain ⟨hmem, hcond⟩ := hp
    have hcond2 : p ≠ [] ∧ p.dropLast = folder := by simpa using hcond
    rw [List.mem_append] at hmem
    rcases hmem with hmem | hmem
    · rw [show ({ fs with files := fs.files ++ [folder ++ [logMarker ++ ts ++ ".txt"]] } : FS).files =
          fs.files ++ [folder ++ [logMarker ++ ts ++ ".txt"]] from rfl, List.mem_append] at hmem
      rcases hmem with hmem | hmem
      · exact Or.inr (h2 p hmem hcond2.1 hcond2.2)
      · rw [List.mem_singleton] at hmem
        subst hmem
        refine Or.inr ?_
        rw [pathName_concat]
        exact logName_startsWith ts
    · exact Or.inl (by simp [FS.isDir]; exact hmem)

/-- C10 witness: a directory whose only direct child file is an old log. -/
theorem organize_no_candidates_creates_log_witness :
    FS.isDir ⟨[["d", "_organize_log_OLD.txt"]], [["d"]]⟩ ["d"] = true ∧
    organize ⟨[["d", "_organize_log_OLD.txt"]], [["d"]]⟩ ["d"] false "T" =
      (⟨[["d", "_organize_log_OLD.txt"], ["d", "_organize_log_T.txt"]], [["d"]]⟩,
        Except.ok ([], 0, ["d", "_organize_log_T.txt"])) :=
  ⟨by decide,
   organize_no_candidates_creates_log ⟨[["d", "_organize_log_OLD.txt"]], [["d"]]⟩ ["d"] "T"
     (by decide) (by decide)⟩

/-- C1 counterexample: after organize-then-undo on the canonical round-trip
directory, the bucket directory `d/images` is a direct child of the root
but is not in the original child set extended by the log file alone, so the
claimed direct-child set equation fails. -/
theorem round_trip_children_cex :
    (["d", "images"] ∈ FS.listDir rtAfterUndo ["d"]) ∧
    ["d", "images"] ∉
      ([["d", "a.jpg"], ["d", "b.pdf"], ["d", "c"], ["d", "_organize_log_T.txt"]] : List Path) := by
  decide

/-- C1 amended: organize followed by undo (non-dry) on the canonical
directory restores all three files to their original paths, and the root's
direct children afterwards equal the original set plus the move log file
*and* the three bucket directories (`images`, `docs`, `no_extension`)
created by the run, which undo does not remove. -/
theorem round_trip_restores_files :
    (["d", "a.jpg"] ∈ rtAfterUndo.files ∧ ["d", "b.pdf"] ∈ rtAfterUndo.files ∧
      ["d", "c"] ∈ rtAfterUndo.files) ∧
    FS.listDir rtAfterUndo ["d"] =
      [["d", "_organize_log_T.txt"], ["d", "c"], ["d", "b.pdf"], ["d", "a.jpg"],
        ["d", "images"], ["d", "docs"], ["d", "no_extension"]] := by
  decide

/-- C4 counterexample: on `cexC4FS` the dry run reports both candidate files
moving to `r/images/a (2).jpg`, while the real run executes the second move
to `r/images/a (2) (2).jpg` because its own first move occupied the probed
path: preview and execution decisions disagree for this snapshot. -/
theorem dry_real_plans_cex :
    (organize cexC4FS ["r"] true "T").2 =
      Except.ok ([(["r", "a.jpg"], ["r", "images", "a (2).jpg"]),
        (["r", "a (2).jpg"], ["r", "images", "a (2).jpg"])], 2, ["r", "_organize_log_T.txt"]) ∧
    (organize cexC4FS ["r"] false "T").2 =
      Except.ok ([(["r", "a.jpg"], ["r", "images", "a (2).jpg"]),
        (["r", "a (2).jpg"], ["r", "images", "a (2) (2).jpg"])], 2,
        ["r", "_organize_log_T.txt"]) ∧
    (organize cexC4FS ["r"] true "T").2 ≠ (organize cexC4FS ["r"] false "T").2 :=
  ⟨by decide, by decide, by decide⟩

/-- C4 amended: the dry-run preview and the non-dry execution make the same
`(source, destination)` decisions for a snapshot provided the run's own
moves cannot feed back into later collision probes: when the snapshot is
well-formed (no duplicate paths, fresh log name), no candidate's default
destination `folder/bucket/name` already exists, and no candidate is named
like a bucket, the dry run's reported pairs, the executed pairs, the counts
and the log path all coincide.  (In general the two runs can disagree —
see the counterexample — because a real move can occupy a path that a later
candidate's collision probe then sees.) -/
theorem dry_real_plans_agree (fs : FS) (folder : Path) (ts : String)
    (h1 : fs.isDir folder = true)
    (h0 : (fs.files ++ fs.dirs).Nodup)
    (h2 : fs.pathExists (folder ++ [logMarker ++ ts ++ ".txt"]) = false)
    (h3 : ∀ p ∈ fs.files, p ≠ [] → p.dropLast = folder →
      strStartsWith (pathName p) logMarker = false →
      fs.pathExists (folder ++ [pick_bucket (splitExt (pathName p)).2, pathName p]) = false ∧
        pathName p ∉ bucketNames) :
    (organize fs folder true ts).2 = (organize fs folder false ts).2 := by
  have hdisj : ∀ p ∈ fs.files, p ∉ fs.dirs := (List.nodup_append.mp h0).2.2
  have hlpf : folder ++ [logMarker ++ ts ++ ".txt"] ∉ fs.files :=
    ((pathExists_false_iff fs _).mp h2).1
  have hlpd : folder ++ [logMarker ++ ts ++ ".txt"] ∉ fs.dirs :=
    ((pathExists_false_iff fs _).mp h2).2
  have hnodup1 :
      (({ fs with files := fs.files ++ [folder ++ [logMarker ++ ts ++ ".txt"]] } : FS).files ++
        ({ fs with files := fs.files ++ [folder ++ [logMarker ++ ts ++ ".txt"]] } : FS).dirs).Nodup := by
    show ((fs.files ++ [folder ++ [logMarker ++ ts ++ ".txt"]]) ++ fs.dirs).Nodup
    rw [List.nodup_append] at h0 ⊢
    rw [List.nodup_append]
    refine ⟨⟨h0.1, by simp, ?_⟩, h0.2.1, ?_⟩
    · intro x hx
      simp only [List.mem_singleton]
      intro he
      rw [he] at hx
      exact hlpf hx
    · intro x hx
      rw [List.mem_append, List.mem_singleton] at hx
      rcases hx with hx | hx
      · exact h0.2.2 hx
      · rw [hx]
        exact hlpd
  have hdry := organize_run fs folder true ts h1 fs (by simp)
    ((fs.listDir folder).foldl (organizeStep folder true) (fs, [], 0)) rfl
  have hreal := organize_run fs folder false ts h1
    { fs with files := fs.files ++ [folder ++ [logMarker ++ ts ++ ".txt"]] } (by simp)
    ((({ fs with files := fs.files ++ [folder ++ [logMarker ++ ts ++ ".txt"]] } : FS).listDir
        folder).foldl (organizeStep folder false)
      ({ fs with files := fs.files ++ [folder ++ [logMarker ++ ts ++ ".txt"]] }, [], 0)) rfl
  rw [hdry, hreal]
  have hd := organize_dry_fold fs folder hdisj
    (fun p hp hne hdrop hmark => (h3 p hp hne hdrop hmark).1) (fs.listDir folder) [] 0
    (fun p hp => by
      obtain ⟨a, b, c⟩ := listDir_mem_props fs folder p hp
      exact ⟨a, b, c.symm⟩)
  obtain ⟨hr1, hr2⟩ := organize_real_fold fs folder ts hdisj h3
    (({ fs with files := fs.files ++ [folder ++ [logMarker ++ ts ++ ".txt"]] } : FS).listDir folder)
    [] { fs with files := fs.files ++ [folder ++ [logMarker ++ ts ++ ".txt"]] } [] 0
    (fun p hp => by
      obtain ⟨a, b, c⟩ := listDir_mem_props _ folder p hp
      refine ⟨a, b, ?_⟩
      rcases c with c | c
      · rw [show ({ fs with files := fs.files ++ [folder ++ [logMarker ++ ts ++ ".txt"]] } :
            FS).files = fs.files ++ [folder ++ [logMarker ++ ts ++ ".txt"]] from rfl,
          List.mem_append, List.mem_singleton] at c
        rcases c with c | c
        · exact Or.inr (Or.inr c)
        · exact Or.inr (Or.inl c)
      · exact Or.inl c)
    (by
      rw [List.nil_append]
      exact listDir_names_nodup _ folder hnodup1)
    (by
      refine ⟨?_, ?_, ?_, ?_⟩
      · intro q
        show q ∈ fs.files ++ [folder ++ [logMarker ++ ts ++ ".txt"]] ↔ _
        rw [List.mem_append, List.mem_singleton]
        simp
      · show (fs.files ++ [folder ++ [logMarker ++ ts ++ ".txt"]]).Nodup
        exact (List.nodup_append.mp hnodup1).1
      · intro q hq
        exact hq
      · intro q hq
        exact Or.inl hq)
  rw [hd, hr1, hr2]
  have hfilterlog : List.filter (fun p => decide (p ≠ []) && decide (p.dropLast = folder))
      [folder ++ [logMarker ++ ts ++ ".txt"]] = [folder ++ [logMarker ++ ts ++ ".txt"]] := by
    simp [List.filter_singleton, List.dropLast_concat]
  have hsplit :
      ({ fs with files := fs.files ++ [folder ++ [logMarker ++ ts ++ ".txt"]] } : FS).listDir
        folder =
      (fs.files.filter (fun p => decide (p ≠ []) && decide (p.dropLast = folder)) ++
        [folder ++ [logMarker ++ ts ++ ".txt"]]) ++
      fs.dirs.filter (fun p => decide (p ≠ []) && decide (p.dropLast = folder)) := by
    show ((fs.files ++ [folder ++ [logMarker ++ ts ++ ".txt"]]) ++ fs.dirs).filter _ = _
    rw [List.filter_append, List.filter_append, hfilterlog]
  have hdryList : fs.listDir folder =
      fs.files.filter (fun p => decide (p ≠ []) && decide (p.dropLast = folder)) ++
      fs.dirs.filter (fun p => decide (p ≠ []) && decide (p.dropLast = folder)) := by
    show (fs.files ++ fs.dirs).filter _ = _
    rw [List.filter_append]
  have hcpD : ∀ l : List Path, (∀ p ∈ l, p ∈ fs.dirs) → canonPlan fs folder l = [] := by
    intro l hl
    refine canonPlan_nil_of_skip fs folder l ?_
    intro p hp
    refine Or.inl ?_
    simp only [FS.isDir, decide_eq_true_eq]
    exact hl p hp
  have hcpLog : canonPlan fs folder [folder ++ [logMarker ++ ts ++ ".txt"]] = [] := by
    refine canonPlan_nil_of_skip fs folder _ ?_
    intro p hp
    rw [List.mem_singleton] at hp
    refine Or.inr ?_
    rw [hp, pathName_concat]
    exact logName_startsWith ts
  have hcpeq : canonPlan fs folder
      (({ fs with files := fs.files ++ [folder ++ [logMarker ++ ts ++ ".txt"]] } : FS).listDir
        folder) = canonPlan fs folder (fs.listDir folder) := by
    rw [hsplit, hdryList, canonPlan_append, canonPlan_append, canonPlan_append, hcpLog,
      hcpD _ (fun p hp => List.mem_of_mem_filter hp)]
    simp
  rw [hcpeq]

/-- C4 amended witness: a snapshot with one candidate file and no
pre-existing collision, on which preview and execution agree exactly. -/
theorem dry_real_plans_agree_witness :
    (organize ⟨[["d", "a.jpg"]], [["d"]]⟩ ["d"] true "T").2 =
      (organize ⟨[["d", "a.jpg"]], [["d"]]⟩ ["d"] false "T").2 :=
  dry_real_plans_agree ⟨[["d", "a.jpg"]], [["d"]]⟩ ["d"] "T" (by decide) (by decide) (by decide)
    (by decide)

end Organizer
